import Mathlib

/-!
Verification of the presentation app's slide data model, viewer
navigation/autoplay state machine, editor slide-list operations,
slide serialization, and app-level persistence handlers, as a shallow
embedding of the TypeScript source.
-/

/-- Slide layout variant, from the union type
`'title' | 'content' | 'image' | 'split'` in App.tsx. -/
inductive Layout where
  | title
  | content
  | image
  | split
deriving DecidableEq

/-- The `Slide` interface from App.tsx: id, title, content,
optional imageUrl, theme, layout. -/
structure Slide where
  id : String
  title : String
  content : String
  imageUrl : Option String
  theme : String
  layout : Layout
deriving DecidableEq

/-- The `Presentation` interface from App.tsx. -/
structure Presentation where
  id : String
  title : String
  slides : List Slide
  theme : String
  createdAt : String
  updatedAt : String
deriving DecidableEq

namespace Viewer

/-- The four state variables of PresentationViewer:
`currentSlideIndex`, `isFullscreen`, `isAutoPlay`, `showControls`. -/
structure State where
  index : Nat
  autoplay : Bool
  fullscreen : Bool
  controlsVisible : Bool
deriving DecidableEq

/-- Initial viewer state: `useState(0)`, `useState(false)`,
`useState(false)`, `useState(true)`. -/
def init : State :=
  { index := 0, autoplay := false, fullscreen := false, controlsVisible := true }

/-- Handler `nextSlide`: if `currentSlideIndex < slides.length - 1` increment,
else no-op. `N` is the slide count. -/
def nextSlide (N : Nat) (s : State) : State :=
  if s.index < N - 1 then { s with index := s.index + 1 } else s

/-- Handler `prevSlide`: if `currentSlideIndex > 0` decrement, else no-op. -/
def prevSlide (s : State) : State :=
  if s.index > 0 then { s with index := s.index - 1 } else s

/-- Handler `restart`: sets index to 0 and turns autoplay off. -/
def restart (s : State) : State :=
  { s with index := 0, autoplay := false }

/-- Handler `toggleAutoPlay`: flips `isAutoPlay`. -/
def toggleAutoPlay (s : State) : State :=
  { s with autoplay := !s.autoplay }

/-- One firing of the autoplay interval (the `setInterval` callback):
the interval exists only while `isAutoPlay` is true; the callback
stops autoplay and keeps the index when `prev >= slides.length - 1`,
otherwise advances by one. -/
def autoplayTick (N : Nat) (s : State) : State :=
  if s.autoplay then
    if s.index ≥ N - 1 then { s with autoplay := false }
    else { s with index := s.index + 1 }
  else s

/-- Discrete viewer events: manual navigation, restart, the autoplay
interval tick, and the autoplay toggle button. -/
inductive Event where
  | next
  | prev
  | restart
  | tick
  | toggleAutoplay
deriving DecidableEq

/-- Transition function of the viewer state machine. -/
def step (N : Nat) (e : Event) (s : State) : State :=
  match e with
  | .next => nextSlide N s
  | .prev => prevSlide s
  | .restart => restart s
  | .tick => autoplayTick N s
  | .toggleAutoplay => toggleAutoPlay s

/-- Run a sequence of viewer events from a state. -/
def run (N : Nat) (es : List Event) (s : State) : State :=
  es.foldl (fun t e => step N e t) s

end Viewer

namespace Editor

/-- Editor state of PresentationEditor: the slide list and theme of
`currentPresentation`, and `selectedSlideIndex`. -/
structure State where
  slides : List Slide
  theme : String
  selected : Nat
deriving DecidableEq

/-- Id string generated for a new slide from the current timestamp:
the template literal `slide-[Date.now()]`. -/
def newSlideId (now : Nat) : String :=
  "slide-" ++ Nat.repr now

/-- The field-level edits the properties panel performs through
`updateSlide`: title, content, layout, imageUrl (set or removed). -/
inductive SlideEdit where
  | title (v : String)
  | content (v : String)
  | layout (l : Layout)
  | imageUrl (u : Option String)
deriving DecidableEq

/-- Merge one update payload into a slide
(the spread `{ ...slide, ...updates }`). -/
def applyEdit (e : SlideEdit) (s : Slide) : Slide :=
  match e with
  | .title v => { s with title := v }
  | .content v => { s with content := v }
  | .layout l => { s with layout := l }
  | .imageUrl u => { s with imageUrl := u }

/-- Handler `updateSlide`: maps over the slides, replacing the slide at
`selectedSlideIndex` with the merged slide. -/
def updateSlide (e : SlideEdit) (st : State) : State :=
  { st with
    slides := st.slides.enum.map
      (fun p => if p.1 == st.selected then applyEdit e p.2 else p.2) }

/-- Handler `addSlide`: appends a fresh default slide (theme taken from the
current presentation, layout content) and selects it. -/
def addSlide (now : Nat) (st : State) : State :=
  let newSlide : Slide :=
    { id := newSlideId now, title := "New Slide",
      content := "Add your content here...", imageUrl := none,
      theme := st.theme, layout := .content }
  let updatedSlides := st.slides ++ [newSlide]
  { st with slides := updatedSlides, selected := updatedSlides.length - 1 }

/-- Handler `duplicateSlide`: clones the slide at `selectedSlideIndex` with a
fresh timestamp id and a title suffixed by " (Copy)", inserts the clone
right after the source (`slice(0, i+1) ++ [clone] ++ slice(i+1)`), and
selects the clone. -/
def duplicateSlide (now : Nat) (st : State) : State :=
  match st.slides[st.selected]? with
  | none => st
  | some slideToClone =>
    let newSlide : Slide :=
      { slideToClone with
        id := newSlideId now,
        title := slideToClone.title ++ " (Copy)" }
    { st with
      slides := st.slides.take (st.selected + 1) ++
        newSlide :: st.slides.drop (st.selected + 1),
      selected := st.selected + 1 }

/-- Handler `deleteSlide`: no-op when `slides.length <= 1`; otherwise removes
the slide whose position equals `selectedSlideIndex`
(`filter((_, index) => index !== selectedSlideIndex)`) and selects
`Math.max(0, selectedSlideIndex - 1)`. -/
def deleteSlide (st : State) : State :=
  if st.slides.length ≤ 1 then st
  else
    { st with
      slides := (st.slides.enum.filter (fun p => p.1 != st.selected)).map Prod.snd,
      selected := st.selected - 1 }

/-- Direction argument of `moveSlide`. -/
inductive MoveDir where
  | up
  | down
deriving DecidableEq

/-- The destructuring swap
`[slides[i], slides[j]] = [slides[j], slides[i]]` on a copied array. -/
def listSwap (l : List α) (i j : Nat) : List α :=
  match l[i]?, l[j]? with
  | some a, some b => (l.set i b).set j a
  | _, _ => l

/-- Handler `moveSlide`: computes the adjacent target position, rejects it when
out of range (`newIndex < 0 || newIndex >= slides.length`), otherwise
swaps the two slides and selects the target position. -/
def moveSlide (d : MoveDir) (st : State) : State :=
  let curIdx : Int := st.selected
  let newIdx : Int := match d with | .up => curIdx - 1 | .down => curIdx + 1
  if newIdx < 0 ∨ (st.slides.length : Int) ≤ newIdx then st
  else
    { st with
      slides := listSwap st.slides st.selected newIdx.toNat,
      selected := newIdx.toNat }

/-- The editor operations the claims quantify over: add, duplicate,
delete, move, field edit. -/
inductive Op where
  | add (now : Nat)
  | dup (now : Nat)
  | del
  | move (d : MoveDir)
  | edit (e : SlideEdit)
deriving DecidableEq

/-- Apply one editor operation. -/
def applyOp (o : Op) (st : State) : State :=
  match o with
  | .add now => addSlide now st
  | .dup now => duplicateSlide now st
  | .del => deleteSlide st
  | .move d => moveSlide d st
  | .edit e => updateSlide e st

/-- Editor events over a session: an operation, or selecting a slide by
clicking its thumbnail (`setSelectedSlideIndex(index)`). -/
inductive Event where
  | op (o : Op)
  | select (i : Nat)
deriving DecidableEq

/-- Apply one editor event. -/
def applyEvent (ev : Event) (st : State) : State :=
  match ev with
  | .op o => applyOp o st
  | .select i => { st with selected := i }

/-- Run a sequence of editor events. -/
def run (evs : List Event) (st : State) : State :=
  evs.foldl (fun t ev => applyEvent ev t) st

/-- The ids of a slide list, in order. -/
def slideIds (l : List Slide) : List String :=
  l.map Slide.id

/-- The timestamp id an editor event generates, if any: add and
duplicate both mint `slide-[Date.now()]`. -/
def eventNewId : Event → Option String
  | .op (.add now) => some (newSlideId now)
  | .op (.dup now) => some (newSlideId now)
  | _ => none

/-- Check that every id-generating event along a run is handed a
timestamp whose id is not already in the deck (i.e. `Date.now()` never
collides with an existing slide id). -/
def freshAlong : List Event → State → Bool
  | [], _ => true
  | ev :: evs, st =>
    (match eventNewId ev with
     | some id => !(slideIds st.slides).contains id
     | none => true) &&
    freshAlong evs (applyEvent ev st)

end Editor

namespace AppShell

/-- One generated item of the AI response's `slides` array in
`createPresentation`: title, content, layout. -/
structure GenItem where
  title : String
  content : String
  layout : Layout
deriving DecidableEq

/-- Id of the i-th generated slide: the template literal
`slide-[Date.now()]-[index]`. -/
def genSlideId (now i : Nat) : String :=
  "slide-" ++ Nat.repr now ++ "-" ++ Nat.repr i

/-- The slide list built by `createPresentation` from the generated
data: `slideData.slides.map((slide, index) => ...)` with timestamp ids,
theme modern, and the generated title/content/layout. -/
def makeSlides (now : Nat) (items : List GenItem) : List Slide :=
  items.enum.map fun p =>
    { id := genSlideId now p.1, title := p.2.title, content := p.2.content,
      imageUrl := none, theme := "modern", layout := p.2.layout }

/-- A JSON value, the target of `JSON.stringify` and the result of
`JSON.parse`; the persistence gateway stores the printed text opaquely,
so the blob is modelled at the level of the JSON value tree. -/
inductive Json where
  | null : Json
  | str : String → Json
  | arr : List Json → Json
  | obj : List (String × Json) → Json

/-- The string literal of a layout in the source
(`'title' | 'content' | 'image' | 'split'`). -/
def layoutStr : Layout → String
  | .title => "title"
  | .content => "content"
  | .image => "image"
  | .split => "split"

/-- Read a layout back from its string literal. -/
def layoutOfStr (s : String) : Option Layout :=
  if s = "title" then some .title
  else if s = "content" then some .content
  else if s = "image" then some .image
  else if s = "split" then some .split
  else none

/-- Encoding `JSON.stringify` applies to one slide object: its enumerable fields in
declaration order; a field holding `undefined` (an absent `imageUrl`)
is omitted by `JSON.stringify`. -/
def encodeSlide (s : Slide) : Json :=
  .obj ([("id", .str s.id), ("title", .str s.title),
         ("content", .str s.content)] ++
    (match s.imageUrl with
     | some u => [("imageUrl", .str u)]
     | none => []) ++
    [("theme", .str s.theme), ("layout", .str (layoutStr s.layout))])

/-- Field lookup in a parsed JSON object. -/
def getField (fs : List (String × Json)) (k : String) : Option Json :=
  (fs.find? (fun p => p.1 == k)).map Prod.snd

/-- Read a JSON string value. -/
def asStr : Json → Option String
  | .str s => some s
  | _ => none

/-- Read one slide back from its parsed JSON object. -/
def decodeSlide (j : Json) : Option Slide :=
  match j with
  | .obj fs =>
    match getField fs ("id") >>= asStr, getField fs ("title") >>= asStr,
        getField fs ("content") >>= asStr,
        getField fs ("layout") >>= asStr >>= layoutOfStr with
    | some id, some title, some content, some layout =>
      some { id := id, title := title, content := content,
             imageUrl := getField fs ("imageUrl") >>= asStr,
             theme := (getField fs ("theme") >>= asStr).getD (""),
             layout := layout }
    | _, _, _, _ => none
  | _ => none

/-- The blob `JSON.stringify(presentation.slides)` in `savePresentation` and
`createPresentation`: the serialized text blob handed to the
persistence gateway, as a JSON value. -/
def serializeSlides (l : List Slide) : Json :=
  .arr (l.map encodeSlide)

/-- The call `JSON.parse(data[0].slides)` in `openPresentation`: the slide list
read back from the stored blob. -/
def parseSlides (j : Json) : Option (List Slide) :=
  match j with
  | .arr xs => xs.mapM decodeSlide
  | _ => none

/-- The app-level state touched by the persistence handlers in App.tsx:
`currentPresentation` and `presentations`. -/
structure State where
  currentPresentation : Option Presentation
  presentations : List Presentation
deriving DecidableEq

/-- Result of one call into the persistence gateway (external):
success or a thrown error. -/
inductive DbResult (α : Type) where
  | ok (value : α)
  | err
deriving DecidableEq

/-- Handler `loadPresentations`: on success replaces `presentations` with the
listed data; a thrown error is caught and logged, leaving state
unchanged. -/
def loadPresentations (st : State) (res : DbResult (List Presentation)) :
    State :=
  match res with
  | .ok data => { st with presentations := data }
  | .err => st

/-- Handler `savePresentation`: when `db.presentations.update` throws, the
catch block only logs, so state is unchanged; on success it sets
`currentPresentation` and then re-runs `loadPresentations` (whose own
failure is likewise caught). -/
def savePresentation (st : State) (p : Presentation)
    (updateRes : DbResult Unit) (listRes : DbResult (List Presentation)) :
    State :=
  match updateRes with
  | .err => st
  | .ok _ => loadPresentations { st with currentPresentation := some p } listRes

end AppShell

namespace Controls

/-- State relevant to the control-visibility logic of the viewer:
`isFullscreen`, `currentSlideIndex` (an effect dependency),
`showControls`, and the pending `setTimeout` hide deadline in
milliseconds (none when no timer is pending). -/
structure State where
  fullscreen : Bool
  slideIndex : Nat
  controlsVisible : Bool
  deadline : Option Nat
deriving DecidableEq

/-- Initial mount: not fullscreen, index 0, controls shown; the mount
run of the effect takes the non-fullscreen branch
(`setShowControls(true)`, no timer). -/
def init : State :=
  { fullscreen := false, slideIndex := 0, controlsVisible := true,
    deadline := none }

/-- Body of the `useEffect` on `[isFullscreen, currentSlideIndex]`,
run at time `t` after its cleanup cleared any pending timeout: in
fullscreen it schedules `setShowControls(false)` 3000 ms later,
otherwise it shows the controls. -/
def runEffect (t : Nat) (s : State) : State :=
  if s.fullscreen then { s with deadline := some (t + 3000) }
  else { s with controlsVisible := true, deadline := none }

/-- Timed events driving the control-visibility logic: an index change
(the effect reruns when the dependency changes), a fullscreen change
(likewise), a mouse movement, and the firing of the pending timeout. -/
inductive Event where
  | setIndex (i : Nat) (t : Nat)
  | setFullscreen (b : Bool) (t : Nat)
  | mouseMove (t : Nat)
  | timerFire (t : Nat)
deriving DecidableEq

/-- Transition of the control-visibility logic as implemented: the
effect reruns only when one of its dependencies `isFullscreen` or
`currentSlideIndex` actually changed; `onMouseMove` only calls
`setShowControls(true)`; the timeout callback hides the controls when
it fires at its scheduled time. -/
def step (e : Event) (s : State) : State :=
  match e with
  | .setIndex i t =>
    if i == s.slideIndex then s else runEffect t { s with slideIndex := i }
  | .setFullscreen b t =>
    if b == s.fullscreen then s else runEffect t { s with fullscreen := b }
  | .mouseMove _ => { s with controlsVisible := true }
  | .timerFire t =>
    if s.deadline == some t then
      { s with controlsVisible := false, deadline := none }
    else s

/-- Run a sequence of timed control events as implemented. -/
def run (es : List Event) (s : State) : State :=
  es.foldl (fun t e => step e t) s

/-- Modelled from the spec (for comparison with the implementation):
the sentence "timer restarts on every `index` change or mouse
movement" — identical to `step` except that a mouse movement while
fullscreen also restarts the 3-second inactivity timer. -/
def specStep (e : Event) (s : State) : State :=
  match e with
  | .mouseMove t =>
    if s.fullscreen then
      { s with controlsVisible := true, deadline := some (t + 3000) }
    else { s with controlsVisible := true }
  | _ => step e s

/-- Run a sequence of timed control events under the spec's wording. -/
def specRun (es : List Event) (s : State) : State :=
  es.foldl (fun t e => specStep e t) s

end Controls

namespace Samples

/-- A concrete slide for instantiating theorems. -/
def slideA : Slide :=
  { id := "slide-1-0", title := "a", content := "c", imageUrl := none,
    theme := "modern", layout := .content }

/-- A second concrete slide. -/
def slideB : Slide :=
  { id := "slide-1-1", title := "b", content := "d", imageUrl := none,
    theme := "modern", layout := .split }

/-- A third concrete slide. -/
def slideC : Slide :=
  { id := "slide-1-2", title := "e", content := "f",
    imageUrl := some ("http://img"), theme := "modern", layout := .image }

/-- A one-slide editor state. -/
def deck1 : Editor.State :=
  { slides := [slideA], theme := "modern", selected := 0 }

/-- A two-slide editor state with the first slide selected. -/
def deck2 : Editor.State :=
  { slides := [slideA, slideB], theme := "modern", selected := 0 }

/-- A three-slide editor state with the middle slide selected. -/
def deck3 : Editor.State :=
  { slides := [slideA, slideB, slideC], theme := "modern", selected := 1 }

/-- A slide whose id coincides with the timestamp id that the editor
generates at `Date.now() = 7`. -/
def slideX : Slide :=
  { id := "slide-7", title := "x", content := "y", imageUrl := none,
    theme := "modern", layout := .content }

/-- A one-slide editor state holding `slideX`. -/
def deckClash : Editor.State :=
  { slides := [slideX], theme := "modern", selected := 0 }

end Samples

section ViewerTheorems

open Viewer

/-- Every single viewer transition keeps the index below the slide
count. -/
theorem Viewer.step_index_lt (N : Nat) (hN : 1 ≤ N) (e : Event) (s : State)
    (h : s.index < N) : (step N e s).index < N := by
  cases e with
  | next =>
    simp only [step, nextSlide]; split_ifs <;> simp_all <;> try omega
  | prev =>
    simp only [step, prevSlide]; split_ifs <;> simp_all <;> try omega
  | restart => simp only [step, restart]; omega
  | tick =>
    simp only [step, autoplayTick]; split_ifs <;> simp_all <;> try omega
  | toggleAutoplay => simpa [step, toggleAutoPlay] using h

/-- Any event sequence keeps the index below the slide count. -/
theorem Viewer.run_index_lt (N : Nat) (hN : 1 ≤ N) (es : List Event)
    (s : State) (h : s.index < N) : (run N es s).index < N := by
  induction es generalizing s with
  | nil => simpa [run] using h
  | cons e es ih =>
    have : run N (e :: es) s = run N es (step N e s) := by
      simp [run, List.foldl_cons]
    rw [this]
    exact ih _ (step_index_lt N hN e s h)

/-- Claim C1: for every presentation with N >= 1 slides, the viewer's
slide index stays in [0, N-1] under every sequence of next, prev,
restart and autoplay-tick transitions, starting from index 0; next
increments only when index < N-1, prev decrements only when index > 0,
restart sets the index to 0, and no transition produces an
out-of-range index. -/
theorem c1_viewer_index_in_range (N : Nat) (hN : 1 ≤ N) :
    (∀ es : List Viewer.Event,
      (Viewer.run N es Viewer.init).index ≤ N - 1) ∧
    (∀ s : Viewer.State, s.index < N - 1 →
      Viewer.nextSlide N s = { s with index := s.index + 1 }) ∧
    (∀ s : Viewer.State, ¬ s.index < N - 1 → Viewer.nextSlide N s = s) ∧
    (∀ s : Viewer.State, 0 < s.index →
      Viewer.prevSlide s = { s with index := s.index - 1 }) ∧
    (∀ s : Viewer.State, s.index = 0 → Viewer.prevSlide s = s) ∧
    (∀ s : Viewer.State, (Viewer.restart s).index = 0) := by
  refine ⟨fun es => ?_, fun s h => ?_, fun s h => ?_, fun s h => ?_,
    fun s h => ?_, fun s => ?_⟩
  · have := Viewer.run_index_lt N hN es Viewer.init (by simp [init]; omega)
    omega
  · simp [nextSlide, h]
  · simp [nextSlide, h]
  · simp [prevSlide, h]
  · simp [prevSlide, h]
  · simp [restart]

/-- Concrete instance of C1: a 3-slide deck driven through a mixed
sequence of transitions stays within [0, 2]. -/
theorem c1_viewer_index_in_range_witness :
    1 ≤ 3 ∧
      (Viewer.run 3 [.next, .next, .next, .tick, .prev, .restart,
        .toggleAutoplay, .tick, .tick, .tick, .prev] Viewer.init).index ≤
        3 - 1 :=
  ⟨by decide, (c1_viewer_index_in_range 3 (by decide)).1 _⟩

/-- Claim C2: while autoplay is on, a timer tick advances the index by
exactly one; when the index is already at the last slide, the tick
sets autoplay to false and leaves the index unchanged (no wrap), and
starting autoplay on a 2-slide deck yields index 1 and autoplay false
after two ticks. -/
theorem c2_autoplay_tick_behavior (N : Nat) (s : Viewer.State)
    (h : s.autoplay = true) :
    (s.index < N - 1 →
      Viewer.autoplayTick N s = { s with index := s.index + 1 }) ∧
    (s.index = N - 1 →
      Viewer.autoplayTick N s = { s with autoplay := false }) ∧
    (Viewer.run 2 [.toggleAutoplay, .tick, .tick] Viewer.init =
      { index := 1, autoplay := false, fullscreen := false,
        controlsVisible := true }) := by
  refine ⟨fun h1 => ?_, fun h1 => ?_, by decide⟩
  · simp [autoplayTick, h]
    omega
  · simp [autoplayTick, h]
    omega

/-- Concrete instance of C2: a tick at index 0 of a 3-slide deck with
autoplay on advances to index 1. -/
theorem c2_autoplay_tick_behavior_witness :
    Viewer.autoplayTick 3
        { index := 0, autoplay := true, fullscreen := false,
          controlsVisible := true } =
      { index := 1, autoplay := true, fullscreen := false,
        controlsVisible := true } := by
  have h := (c2_autoplay_tick_behavior 3
    { index := 0, autoplay := true, fullscreen := false,
      controlsVisible := true } rfl).1 (by decide)
  simpa using h

end ViewerTheorems

section EditorLemmas

open Editor

/-- Filtering an index-decorated list by index and projecting back is
removal at that index (offset by the decoration start). -/
theorem Editor.enumFrom_filter_ne_map (l : List Slide) (n i : Nat) :
    ((l.enumFrom n).filter (fun p => p.1 != i)).map Prod.snd =
      if i < n then l else l.eraseIdx (i - n) := by
  induction l generalizing n with
  | nil => simp [List.eraseIdx]
  | cons a l ih =>
    simp only [List.enumFrom_cons, List.filter_cons]
    by_cases hni : n = i
    · subst hni
      simp only [bne_self_eq_false, Bool.false_eq_true, if_false, ih]
      have h1 : n < n + 1 := Nat.lt_succ_self n
      have h2 : ¬ n < n := Nat.lt_irrefl n
      simp [h1, h2, Nat.sub_self]
    · have hb : (n != i) = true := bne_iff_ne.mpr hni
      simp only [hb, if_true, List.map_cons, ih]
      rcases Nat.lt_trichotomy i n with hlt | heq | hgt
      · have : i < n + 1 := Nat.lt_succ_of_lt hlt
        simp [hlt, this]
      · exact absurd heq.symm hni
      · have h1 : ¬ i < n + 1 := by omega
        have h2 : ¬ i < n := by omega
        have h3 : i - n = (i - (n + 1)) + 1 := by omega
        simp [h1, h2, h3]

/-- Lemma: `deleteSlide` leaves the list alone below two slides, and removes
exactly the selected position otherwise. -/
theorem Editor.deleteSlide_slides (st : State) :
    (deleteSlide st).slides =
      if st.slides.length ≤ 1 then st.slides
      else st.slides.eraseIdx st.selected := by
  by_cases h : st.slides.length ≤ 1
  · simp [deleteSlide, h]
  · have := Editor.enumFrom_filter_ne_map st.slides 0 st.selected
    simp only [deleteSlide, h, if_false]
    simpa [List.enum] using this

/-- Lemma: `deleteSlide` keeps the selection unchanged below two slides, and
moves it to the clamped previous position otherwise. -/
theorem Editor.deleteSlide_selected (st : State) :
    (deleteSlide st).selected =
      if st.slides.length ≤ 1 then st.selected else st.selected - 1 := by
  by_cases h : st.slides.length ≤ 1 <;> simp [deleteSlide, h]

/-- A field edit never changes the number of slides. -/
theorem Editor.updateSlide_length (e : SlideEdit) (st : State) :
    (updateSlide e st).slides.length = st.slides.length := by
  simp [updateSlide]

/-- A field edit never changes the selection. -/
theorem Editor.updateSlide_selected (e : SlideEdit) (st : State) :
    (updateSlide e st).selected = st.selected := rfl

/-- The destructuring swap never changes the length. -/
theorem Editor.listSwap_length (l : List Slide) (i j : Nat) :
    (listSwap l i j).length = l.length := by
  unfold listSwap
  rcases h1 : l[i]? with _ | a <;> rcases h2 : l[j]? with _ | b <;> simp

/-- Lemma: `moveSlide` never changes the number of slides. -/
theorem Editor.moveSlide_length (d : MoveDir) (st : State) :
    (moveSlide d st).slides.length = st.slides.length := by
  cases d <;> simp only [moveSlide] <;> split_ifs <;>
    simp [Editor.listSwap_length]

/-- Lemma: `duplicateSlide` at a valid selection: the clone of the selected
slide, with the fresh id and suffixed title, goes right after it, and
the clone becomes selected. -/
theorem Editor.duplicateSlide_eq (now : Nat) (st : State)
    (h : st.selected < st.slides.length) :
    duplicateSlide now st =
      { st with
        slides := st.slides.take (st.selected + 1) ++
          { st.slides[st.selected] with
            id := newSlideId now,
            title := st.slides[st.selected].title ++ " (Copy)" } ::
            st.slides.drop (st.selected + 1),
        selected := st.selected + 1 } := by
  simp [duplicateSlide, List.getElem?_eq_getElem h]

end EditorLemmas

section EditorFloorTheorems

open Editor

/-- Claim C3: every editor operation keeps the slide list length at
least 1: deleting when exactly one slide remains is a no-op that
changes nothing, and no operation other than delete decreases the
length. -/
theorem c3_slide_count_floor (st : Editor.State)
    (h : 1 ≤ st.slides.length) :
    (st.slides.length = 1 → Editor.deleteSlide st = st) ∧
    (∀ o : Editor.Op, 1 ≤ (Editor.applyOp o st).slides.length) ∧
    (∀ o : Editor.Op, o ≠ .del →
      st.slides.length ≤ (Editor.applyOp o st).slides.length) := by
  refine ⟨fun h1 => ?_, fun o => ?_, fun o ho => ?_⟩
  · simp [deleteSlide, h1]
  · cases o with
    | add now => simp [applyOp, addSlide]
    | dup now =>
      simp only [applyOp, duplicateSlide]
      rcases hs : st.slides[st.selected]? with _ | a
      · simpa using h
      · simp
        omega
    | del =>
      simp only [applyOp, Editor.deleteSlide_slides]
      split_ifs with h1
      · exact h
      · rw [List.length_eraseIdx]
        split_ifs <;> omega
    | move d =>
      rw [applyOp, Editor.moveSlide_length]
      exact h
    | edit e =>
      rw [applyOp, Editor.updateSlide_length]
      exact h
  · cases o with
    | add now => simp [applyOp, addSlide]
    | dup now =>
      simp only [applyOp, duplicateSlide]
      rcases hs : st.slides[st.selected]? with _ | a
      · simp
      · simp [List.length_take]
        omega
    | del => exact absurd rfl ho
    | move d => rw [applyOp, Editor.moveSlide_length]
    | edit e => rw [applyOp, Editor.updateSlide_length]

/-- Concrete instance of C3: deleting from a one-slide deck changes
nothing. -/
theorem c3_slide_count_floor_witness :
    Editor.deleteSlide Samples.deck1 = Samples.deck1 :=
  (c3_slide_count_floor Samples.deck1 (by decide)).1 (by decide)

/-- Claim C7: every editor operation applied to a state whose selected
index is valid yields a state whose selected index is again a valid
position into the resulting slide list. -/
theorem c7_selection_stays_valid (st : Editor.State)
    (h : st.selected < st.slides.length) (o : Editor.Op) :
    (Editor.applyOp o st).selected < (Editor.applyOp o st).slides.length := by
  cases o with
  | add now => simp [applyOp, addSlide]
  | dup now =>
    rw [applyOp, Editor.duplicateSlide_eq now st h]
    simp [List.length_take]
    omega
  | del =>
    simp only [applyOp, Editor.deleteSlide_slides, Editor.deleteSlide_selected]
    split_ifs with h1
    · exact h
    · rw [List.length_eraseIdx]
      split_ifs <;> omega
  | move d =>
    cases d <;> simp only [applyOp, moveSlide] <;> split_ifs with h1
    · exact h
    · simp [Editor.listSwap_length]
      omega
    · exact h
    · simp [Editor.listSwap_length]
      omega
  | edit e =>
    simp only [applyOp]
    rw [Editor.updateSlide_length, Editor.updateSlide_selected]
    exact h

/-- Concrete instance of C7: duplicating the selected slide of a
two-slide deck keeps the selection valid. -/
theorem c7_selection_stays_valid_witness :
    Samples.deck2.selected < Samples.deck2.slides.length ∧
      (Editor.applyOp (.dup 9) Samples.deck2).selected <
        (Editor.applyOp (.dup 9) Samples.deck2).slides.length :=
  ⟨by decide, c7_selection_stays_valid Samples.deck2 (by decide) _⟩

end EditorFloorTheorems

section MoveLemmas

open Editor

/-- After the swap, the first swapped position holds the element that
was at the second. -/
theorem Editor.listSwap_getElem_fst (l : List Slide) (i j : Nat)
    (hi : i < l.length) (hj : j < l.length) :
    (listSwap l i j)[i]? = l[j]? := by
  unfold listSwap
  rw [List.getElem?_eq_getElem hi, List.getElem?_eq_getElem hj]
  dsimp only
  by_cases hij : i = j
  · subst hij
    rw [List.set_set]
    exact List.getElem?_set_self (by simpa using hi)
  · rw [List.getElem?_set_ne (Ne.symm hij),
      List.getElem?_set_self (by simpa using hi)]

/-- After the swap, the second swapped position holds the element that
was at the first. -/
theorem Editor.listSwap_getElem_snd (l : List Slide) (i j : Nat)
    (hi : i < l.length) (hj : j < l.length) :
    (listSwap l i j)[j]? = l[i]? := by
  unfold listSwap
  rw [List.getElem?_eq_getElem hi, List.getElem?_eq_getElem hj]
  dsimp only
  rw [List.getElem?_set_self (by simpa using hj)]

/-- The swap leaves every other position unchanged. -/
theorem Editor.listSwap_getElem_other (l : List Slide) (i j k : Nat)
    (hk1 : k ≠ i) (hk2 : k ≠ j) :
    (listSwap l i j)[k]? = l[k]? := by
  unfold listSwap
  rcases h1 : l[i]? with _ | a <;> rcases h2 : l[j]? with _ | b <;> try rfl
  rw [List.getElem?_set_ne (Ne.symm hk2), List.getElem?_set_ne (Ne.symm hk1)]

/-- Moving up from position 0 is rejected. -/
theorem Editor.moveSlide_up_noop (st : State) (h : st.selected = 0) :
    moveSlide .up st = st := by
  simp only [moveSlide]
  rw [if_pos]
  left
  simp [h]

/-- Moving down from the last position is rejected. -/
theorem Editor.moveSlide_down_noop (st : State)
    (h : st.slides.length ≤ st.selected + 1) :
    moveSlide .down st = st := by
  simp only [moveSlide]
  rw [if_pos]
  right
  push_cast
  omega

/-- Moving up elsewhere swaps with the previous slide and selects its
position. -/
theorem Editor.moveSlide_up_eq (st : State) (h : 0 < st.selected)
    (h2 : st.selected < st.slides.length) :
    moveSlide .up st =
      { st with
        slides := listSwap st.slides st.selected (st.selected - 1),
        selected := st.selected - 1 } := by
  simp only [moveSlide]
  split_ifs with h1
  · exfalso
    rcases h1 with h1 | h1 <;> omega
  · have ht : ((st.selected : Int) - 1).toNat = st.selected - 1 := by omega
    rw [ht]

/-- Moving down elsewhere swaps with the next slide and selects its
position. -/
theorem Editor.moveSlide_down_eq (st : State)
    (h : st.selected + 1 < st.slides.length) :
    moveSlide .down st =
      { st with
        slides := listSwap st.slides st.selected (st.selected + 1),
        selected := st.selected + 1 } := by
  simp only [moveSlide]
  split_ifs with h1
  · exfalso
    rcases h1 with h1 | h1 <;> omega
  · have ht : ((st.selected : Int) + 1).toNat = st.selected + 1 := by omega
    rw [ht]

end MoveLemmas

section MoveTheorems

open Editor

/-- Claim C6: moving the selected slide up at position 0 or down at the
last position is a no-op (list and selection unchanged); otherwise the
move swaps the selected slide with its adjacent neighbor in the given
direction and the selection follows the moved slide. -/
theorem c6_move_swap_or_noop (st : Editor.State)
    (h : st.selected < st.slides.length) :
    (st.selected = 0 → Editor.moveSlide .up st = st) ∧
    (st.selected = st.slides.length - 1 → Editor.moveSlide .down st = st) ∧
    (0 < st.selected →
      (Editor.moveSlide .up st).selected = st.selected - 1 ∧
      (Editor.moveSlide .up st).slides[st.selected - 1]? =
        st.slides[st.selected]? ∧
      (Editor.moveSlide .up st).slides[st.selected]? =
        st.slides[st.selected - 1]? ∧
      ∀ k, k ≠ st.selected - 1 → k ≠ st.selected →
        (Editor.moveSlide .up st).slides[k]? = st.slides[k]?) ∧
    (st.selected + 1 < st.slides.length →
      (Editor.moveSlide .down st).selected = st.selected + 1 ∧
      (Editor.moveSlide .down st).slides[st.selected + 1]? =
        st.slides[st.selected]? ∧
      (Editor.moveSlide .down st).slides[st.selected]? =
        st.slides[st.selected + 1]? ∧
      ∀ k, k ≠ st.selected → k ≠ st.selected + 1 →
        (Editor.moveSlide .down st).slides[k]? = st.slides[k]?) := by
  refine ⟨Editor.moveSlide_up_noop st,
    fun h1 => Editor.moveSlide_down_noop st (by omega), fun h1 => ?_,
    fun h1 => ?_⟩
  · rw [Editor.moveSlide_up_eq st h1 h]
    refine ⟨rfl, ?_, ?_, fun k hk1 hk2 => ?_⟩
    · exact Editor.listSwap_getElem_snd st.slides st.selected
        (st.selected - 1) h (by omega)
    · exact Editor.listSwap_getElem_fst st.slides st.selected
        (st.selected - 1) h (by omega)
    · exact Editor.listSwap_getElem_other st.slides st.selected
        (st.selected - 1) k hk2 hk1
  · rw [Editor.moveSlide_down_eq st h1]
    refine ⟨rfl, ?_, ?_, fun k hk1 hk2 => ?_⟩
    · exact Editor.listSwap_getElem_snd st.slides st.selected
        (st.selected + 1) h (by omega)
    · exact Editor.listSwap_getElem_fst st.slides st.selected
        (st.selected + 1) h (by omega)
    · exact Editor.listSwap_getElem_other st.slides st.selected
        (st.selected + 1) k hk1 hk2

/-- Concrete instance of C6: in a 3-slide deck with the middle slide
selected, moving up swaps it with the first slide and selects
position 0. -/
theorem c6_move_swap_or_noop_witness :
    Samples.deck3.selected < Samples.deck3.slides.length ∧
      (Editor.moveSlide .up Samples.deck3).selected =
        Samples.deck3.selected - 1 :=
  ⟨by decide,
    ((c6_move_swap_or_noop Samples.deck3 (by decide)).2.2.1 (by decide)).1⟩

end MoveTheorems

section DuplicateTheorems

open Editor

/-- Counterexample to C5 as stated: when `Date.now()` yields a value
whose timestamp id is already carried by the source slide (here both
are "slide-7"), the duplicate's id is not fresh — it equals the
source's id. -/
theorem c5_duplicate_id_not_fresh :
    ((Editor.duplicateSlide 7 Samples.deckClash).slides.map Slide.id) =
      ["slide-7", "slide-7"] := by decide

/-- Claim C5 (amended): duplicating at a valid selection inserts the
copy immediately after the source slide, gives it the source's fields
with the title suffixed by " (Copy)" and the newly generated timestamp
id (fresh whenever that id is not already in the deck), moves the
selection to the copy, and leaves all other slides and their order
unchanged; so a 3-slide deck with selection 1 yields 4 slides with the
copy selected at index 2. -/
theorem c5_duplicate_inserts_copy_after (st : Editor.State) (now : Nat)
    (h : st.selected < st.slides.length) :
    (Editor.duplicateSlide now st).slides =
      st.slides.take (st.selected + 1) ++
        { st.slides[st.selected] with
          id := Editor.newSlideId now,
          title := st.slides[st.selected].title ++ " (Copy)" } ::
        st.slides.drop (st.selected + 1) ∧
    (Editor.duplicateSlide now st).selected = st.selected + 1 ∧
    (Editor.duplicateSlide now st).slides.length = st.slides.length + 1 ∧
    (Editor.duplicateSlide now st).slides[st.selected + 1]? =
      some { st.slides[st.selected] with
        id := Editor.newSlideId now,
        title := st.slides[st.selected].title ++ " (Copy)" } ∧
    (∀ i, i ≤ st.selected →
      (Editor.duplicateSlide now st).slides[i]? = st.slides[i]?) ∧
    (∀ i, st.selected < i → i < st.slides.length →
      (Editor.duplicateSlide now st).slides[i + 1]? = st.slides[i]?) ∧
    (Editor.newSlideId now ∉ Editor.slideIds st.slides →
      ∀ s ∈ st.slides, s.id ≠ Editor.newSlideId now) := by
  rw [Editor.duplicateSlide_eq now st h]
  have hTake : (st.slides.take (st.selected + 1)).length = st.selected + 1 :=
    List.length_take_of_le (by omega)
  refine ⟨rfl, rfl, ?_, ?_, fun i hi => ?_, fun i hi1 hi2 => ?_,
    fun hfresh s hs hcontra => ?_⟩
  · simp [hTake]
    omega
  · rw [List.getElem?_append_right (by omega)]
    simp [hTake]
  · rw [List.getElem?_append_left (by omega)]
    exact List.getElem?_take_of_lt (by omega)
  · rw [List.getElem?_append_right (by omega), hTake]
    have hd : i + 1 - (st.selected + 1) = (i - (st.selected + 1)) + 1 := by
      omega
    rw [hd]
    simp only [List.getElem?_cons_succ]
    rw [List.getElem?_drop]
    congr 1
    omega
  · exact hfresh (by simpa [Editor.slideIds, hcontra] using
      List.mem_map_of_mem Slide.id hs)

/-- Concrete instance of C5: duplicating slide 1 of a 3-slide deck
gives 4 slides with the copy (suffixed title) selected at index 2. -/
theorem c5_duplicate_inserts_copy_after_witness :
    Samples.deck3.selected < Samples.deck3.slides.length ∧
      (Editor.duplicateSlide 9 Samples.deck3).slides.length = 4 ∧
      (Editor.duplicateSlide 9 Samples.deck3).selected = 2 := by
  have hgen := c5_duplicate_inserts_copy_after Samples.deck3 9 (by decide)
  exact ⟨by decide, by rw [hgen.2.2.1]; decide, hgen.2.1⟩

end DuplicateTheorems

section ReprInjectivity

/-- Lemma: `Nat.toDigitsCore` with enough fuel produces the reversed decimal
digit characters, prepended to the accumulator. -/
theorem natToDigitsCore_eq_digits (fuel : Nat) :
    ∀ (n : Nat) (ds : List Char), 0 < n → n ≤ fuel →
      Nat.toDigitsCore 10 fuel n ds =
        ((Nat.digits 10 n).map Nat.digitChar).reverse ++ ds := by
  induction fuel with
  | zero => intro n ds h0 hf; omega
  | succ fuel ih =>
    intro n ds h0 hf
    simp only [Nat.toDigitsCore]
    by_cases h : n / 10 = 0
    · have hn10 : n < 10 := by omega
      rw [if_pos h, Nat.digits_def' (by norm_num : (1 : Nat) < 10) h0, h,
        Nat.mod_eq_of_lt hn10]
      simp
    · have hlt : n / 10 < n := Nat.div_lt_self h0 (by norm_num)
      rw [if_neg h,
        ih (n / 10) _ (Nat.pos_of_ne_zero h) (by omega),
        Nat.digits_def' (by norm_num : (1 : Nat) < 10) h0]
      simp

/-- Lemma: `Nat.toDigits` of a positive number is the reversed decimal digit
characters. -/
theorem natToDigits_eq_digits (n : Nat) (h0 : 0 < n) :
    Nat.toDigits 10 n = ((Nat.digits 10 n).map Nat.digitChar).reverse := by
  rw [Nat.toDigits, natToDigitsCore_eq_digits (n + 1) n [] h0 (by omega)]
  simp

/-- Lemma: `Nat.digitChar` is injective on digits below 10. -/
theorem digitChar_inj_below_ten :
    ∀ a < 10, ∀ b < 10, Nat.digitChar a = Nat.digitChar b → a = b := by
  decide

/-- Mapping `Nat.digitChar` over lists of digits below 10 is
injective. -/
theorem map_digitChar_inj :
    ∀ (l1 l2 : List Nat), (∀ x ∈ l1, x < 10) → (∀ x ∈ l2, x < 10) →
      l1.map Nat.digitChar = l2.map Nat.digitChar → l1 = l2 := by
  intro l1
  induction l1 with
  | nil =>
    intro l2 _ _ h
    cases l2 with
    | nil => rfl
    | cons b t => simp at h
  | cons a t1 ih =>
    intro l2 h1 h2 h
    cases l2 with
    | nil => simp at h
    | cons b t2 =>
      simp only [List.map_cons, List.cons.injEq] at h
      have ha : a = b := digitChar_inj_below_ten a
        (h1 a (List.mem_cons_self a t1)) b (h2 b (List.mem_cons_self b t2))
        h.1
      rw [ha, ih t2 (fun x hx => h1 x (List.mem_cons_of_mem a hx))
        (fun x hx => h2 x (List.mem_cons_of_mem b hx)) h.2]

/-- Lemma: `Nat.repr` is injective: distinct numbers print to distinct
decimal strings. -/
theorem natRepr_injective : Function.Injective Nat.repr := by
  intro m n h
  have h' : Nat.toDigits 10 m = Nat.toDigits 10 n := congrArg String.data h
  by_cases hm : m = 0 <;> by_cases hn : n = 0
  · omega
  · exfalso
    rw [show Nat.toDigits 10 m = ['0'] by rw [hm]; rfl,
      natToDigits_eq_digits n (Nat.pos_of_ne_zero hn)] at h'
    have hlen : (Nat.digits 10 n).length = 1 := by
      have := congrArg List.length h'
      simp at this
      omega
    obtain ⟨d, hd⟩ := List.length_eq_one.mp hlen
    rw [hd] at h'
    simp only [List.map_cons, List.map_nil, List.reverse_singleton,
      List.cons.injEq] at h'
    have hd10 : d < 10 :=
      Nat.digits_lt_base (by norm_num) (by rw [hd]; exact List.mem_singleton_self d)
    have hd0 : d = 0 := by
      have := digitChar_inj_below_ten 0 (by norm_num) d hd10 h'.1
      omega
    have := Nat.ofDigits_digits 10 n
    rw [hd, hd0] at this
    simp [Nat.ofDigits] at this
    exact hn this.symm
  · exfalso
    rw [show Nat.toDigits 10 n = ['0'] by rw [hn]; rfl,
      natToDigits_eq_digits m (Nat.pos_of_ne_zero hm)] at h'
    have hlen : (Nat.digits 10 m).length = 1 := by
      have := congrArg List.length h'
      simp at this
      omega
    obtain ⟨d, hd⟩ := List.length_eq_one.mp hlen
    rw [hd] at h'
    simp only [List.map_cons, List.map_nil, List.reverse_singleton,
      List.cons.injEq] at h'
    have hd10 : d < 10 :=
      Nat.digits_lt_base (by norm_num) (by rw [hd]; exact List.mem_singleton_self d)
    have hd0 : d = 0 := by
      have := digitChar_inj_below_ten d hd10 0 (by norm_num) h'.1
      omega
    have := Nat.ofDigits_digits 10 m
    rw [hd, hd0] at this
    simp [Nat.ofDigits] at this
    exact hm this.symm
  · rw [natToDigits_eq_digits m (Nat.pos_of_ne_zero hm),
      natToDigits_eq_digits n (Nat.pos_of_ne_zero hn)] at h'
    have hmap := List.reverse_injective h'
    have hdig := map_digitChar_inj (Nat.digits 10 m) (Nat.digits 10 n)
      (fun x hx => Nat.digits_lt_base (by norm_num) hx)
      (fun x hx => Nat.digits_lt_base (by norm_num) hx) hmap
    exact Nat.digits.injective 10 hdig

end ReprInjectivity

section IdNodupLemmas

open Editor

/-- Consing the element stored at a position onto the list with that
position overwritten is a permutation of consing the new value onto
the original list. -/
theorem set_cons_perm (l : List Slide) :
    ∀ (j : Nat) (b x : Slide), l[j]? = some b →
      (b :: l.set j x).Perm (x :: l) := by
  induction l with
  | nil => intro j b x h; simp at h
  | cons c t ih =>
    intro j b x h
    cases j with
    | zero =>
      simp only [List.getElem?_cons_zero, Option.some.injEq] at h
      subst h
      simp only [List.set_cons_zero]
      exact List.Perm.swap x c t
    | succ j =>
      simp only [List.getElem?_cons_succ] at h
      have step1 : (b :: c :: t.set j x).Perm (c :: b :: t.set j x) :=
        List.Perm.swap c b (t.set j x)
      have step2 : (c :: b :: t.set j x).Perm (c :: x :: t) :=
        (ih j b x h).cons c
      have step3 : (c :: x :: t).Perm (x :: c :: t) := List.Perm.swap x c t
      exact (step1.trans step2).trans step3

/-- Overwriting a position with the value it already holds changes
nothing. -/
theorem set_getElem_self_eq (l : List Slide) (j : Nat) (a : Slide)
    (h : l[j]? = some a) : l.set j a = l := by
  have hjl : j < l.length := by
    by_contra hc
    rw [List.getElem?_eq_none (Nat.le_of_not_lt hc)] at h
    cases h
  apply List.ext_getElem?
  intro n
  by_cases hn : n = j
  · subst hn
    rw [List.getElem?_set_self hjl]
    exact h.symm
  · exact List.getElem?_set_ne (fun hc => hn hc.symm)

/-- The destructuring swap is a permutation of the original list. -/
theorem listSwap_perm (l : List Slide) (i j : Nat) :
    (listSwap l i j).Perm l := by
  unfold listSwap
  rcases h1 : l[i]? with _ | a <;> rcases h2 : l[j]? with _ | b <;>
    try exact List.Perm.refl l
  dsimp only
  by_cases hij : i = j
  · subst hij
    rw [List.set_set]
    have hab : a = b := by rw [h1] at h2; exact Option.some.inj h2
    rw [hab, set_getElem_self_eq l i b (hab ▸ h1)]
  · have hj2 : (l.set i b)[j]? = some b :=
      (List.getElem?_set_ne hij).trans h2
    have q1 : (a :: l.set i b).Perm (b :: l) := set_cons_perm l i a b h1
    have q2 : (b :: (l.set i b).set j a).Perm (a :: l.set i b) :=
      set_cons_perm (l.set i b) j b a hj2
    exact (q2.trans q1).cons_inv

/-- A field edit never changes any slide id. -/
theorem applyEdit_id (e : SlideEdit) (s : Slide) :
    (applyEdit e s).id = s.id := by
  cases e <;> rfl

/-- A field edit leaves the id list untouched. -/
theorem updateSlide_ids (e : SlideEdit) (st : Editor.State) :
    slideIds (updateSlide e st).slides = slideIds st.slides := by
  simp only [updateSlide, slideIds, List.map_map]
  have hfun : (Slide.id ∘ fun p : Nat × Slide =>
      if p.1 == st.selected then applyEdit e p.2 else p.2) =
      (Slide.id ∘ Prod.snd) := by
    funext p
    by_cases hp : p.1 = st.selected <;> simp [hp, applyEdit_id]
  rw [hfun, ← List.map_map]
  rw [List.enum_map_snd]

/-- Every single editor event preserves distinctness of slide ids,
provided the id it generates (if any) is not already present. -/
theorem applyEvent_ids_nodup (ev : Editor.Event) (st : Editor.State)
    (h : (slideIds st.slides).Nodup)
    (hf : ∀ id, eventNewId ev = some id → id ∉ slideIds st.slides) :
    (slideIds (applyEvent ev st).slides).Nodup := by
  cases ev with
  | select i => exact h
  | op o =>
    cases o with
    | add now =>
      have hnotin := hf (newSlideId now) rfl
      simp only [applyEvent, applyOp, addSlide, slideIds, List.map_append,
        List.map_cons, List.map_nil]
      rw [show (st.slides.map Slide.id) ++ [newSlideId now] =
        (st.slides.map Slide.id) ++ newSlideId now :: [] from rfl]
      rw [List.nodup_middle]
      simp only [List.append_nil]
      exact List.nodup_cons.mpr ⟨hnotin, h⟩
    | dup now =>
      have hnotin := hf (newSlideId now) rfl
      simp only [applyEvent, applyOp, duplicateSlide]
      rcases hs : st.slides[st.selected]? with _ | a
      · exact h
      · dsimp only
        simp only [slideIds, List.map_append, List.map_cons, List.map_take,
          List.map_drop]
        rw [List.nodup_middle, List.take_append_drop]
        refine List.nodup_cons.mpr ⟨?_, by simpa [slideIds] using h⟩
        simpa [slideIds] using hnotin
    | del =>
      simp only [applyEvent, applyOp, Editor.deleteSlide_slides]
      split_ifs with h1
      · exact h
      · have hsub : List.Sublist
            ((st.slides.eraseIdx st.selected).map Slide.id)
            (st.slides.map Slide.id) :=
          (List.eraseIdx_sublist st.slides st.selected).map Slide.id
        exact List.Nodup.sublist hsub h
    | move d =>
      cases d <;> simp only [applyEvent, applyOp, moveSlide] <;>
        split_ifs with h1
      · exact h
      · exact ((listSwap_perm st.slides st.selected
          ((st.selected : Int) - 1).toNat).map Slide.id).nodup_iff.mpr h
      · exact h
      · exact ((listSwap_perm st.slides st.selected
          ((st.selected : Int) + 1).toNat).map Slide.id).nodup_iff.mpr h
    | edit e =>
      simp only [applyEvent, applyOp]
      rw [updateSlide_ids]
      exact h

/-- Freshness along a run lets every step of the induction fire. -/
theorem run_ids_nodup (evs : List Editor.Event) (st : Editor.State)
    (h : (slideIds st.slides).Nodup) (hf : freshAlong evs st = true) :
    (slideIds (Editor.run evs st).slides).Nodup := by
  induction evs generalizing st with
  | nil => simpa [Editor.run] using h
  | cons ev evs ih =>
    simp only [freshAlong, Bool.and_eq_true] at hf
    have hstep : (slideIds (applyEvent ev st).slides).Nodup := by
      refine applyEvent_ids_nodup ev st h (fun id hid => ?_)
      rcases hf with ⟨hf1, _⟩
      rw [hid] at hf1
      simp only [Bool.not_eq_true'] at hf1
      intro hmem
      rw [show (slideIds st.slides).contains id =
        List.elem id (slideIds st.slides) from rfl,
        List.elem_eq_mem, decide_eq_false_iff_not] at hf1
      exact hf1 hmem
    have hrun : Editor.run (ev :: evs) st = Editor.run evs (applyEvent ev st) := by
      simp [Editor.run]
    rw [hrun]
    exact ih (applyEvent ev st) hstep hf.2

end IdNodupLemmas

section IdTheorems

/-- For a fixed timestamp, the generated slide ids are injective in
the position index. -/
theorem genSlideId_injective (now : Nat) :
    Function.Injective (AppShell.genSlideId now) := by
  intro i j h
  unfold AppShell.genSlideId at h
  have hdata := congrArg String.data h
  simp only [String.data_append, List.append_assoc] at hdata
  have h2 := List.append_cancel_left hdata
  have h3 := List.append_cancel_left h2
  have h4 := List.append_cancel_left h3
  exact natRepr_injective (String.ext h4)

/-- The ids of a generated deck are exactly the indexed timestamp ids
over the item positions. -/
theorem makeSlides_ids (now : Nat) (items : List AppShell.GenItem) :
    Editor.slideIds (AppShell.makeSlides now items) =
      (List.range items.length).map (AppShell.genSlideId now) := by
  simp only [AppShell.makeSlides, Editor.slideIds, List.map_map]
  have hfun : (Slide.id ∘ fun p : Nat × AppShell.GenItem =>
      ({ id := AppShell.genSlideId now p.1, title := p.2.title,
         content := p.2.content, imageUrl := none, theme := "modern",
         layout := p.2.layout } : Slide)) =
      (AppShell.genSlideId now) ∘ Prod.fst := rfl
  rw [hfun, ← List.map_map, List.enum_map_fst]

/-- A generated deck has pairwise distinct slide ids. -/
theorem makeSlides_ids_nodup (now : Nat) (items : List AppShell.GenItem) :
    (Editor.slideIds (AppShell.makeSlides now items)).Nodup := by
  rw [makeSlides_ids]
  exact (List.nodup_range items.length).map (genSlideId_injective now)

/-- Counterexample to C8 as stated: two editor operations handed the
same `Date.now()` value (7) mint the same id "slide-7", so the deck
ends with duplicate ids. -/
theorem c8_duplicate_ids_on_timestamp_collision :
    ¬ (Editor.slideIds
        (Editor.run [.op (.add 7), .op (.dup 7)]
          Samples.deck1).slides).Nodup := by
  decide

/-- Claim C8 (amended): slide ids are pairwise distinct in every
presentation produced by generation; and starting from any deck with
pairwise distinct ids, every sequence of editor events keeps the ids
pairwise distinct provided each id-generating operation (add,
duplicate) is handed a timestamp whose id is not already in the deck
(`Date.now()` collisions can otherwise violate uniqueness). -/
theorem c8_slide_ids_distinct (now : Nat) (items : List AppShell.GenItem)
    (evs : List Editor.Event) (st : Editor.State)
    (h : (Editor.slideIds st.slides).Nodup)
    (hf : Editor.freshAlong evs st = true) :
    (Editor.slideIds (AppShell.makeSlides now items)).Nodup ∧
    (Editor.slideIds (Editor.run evs st).slides).Nodup :=
  ⟨makeSlides_ids_nodup now items, run_ids_nodup evs st h hf⟩

/-- Concrete instance of C8 (amended): generation of a 2-item deck and
an add/duplicate session with non-colliding timestamps both end with
distinct ids. -/
theorem c8_slide_ids_distinct_witness :
    (Editor.slideIds Samples.deck2.slides).Nodup ∧
    Editor.freshAlong [.op (.add 7), .op (.dup 9)] Samples.deck2 = true ∧
    (Editor.slideIds (AppShell.makeSlides 1
      [{ title := "t", content := "c", layout := .content },
       { title := "u", content := "d", layout := .split }])).Nodup ∧
    (Editor.slideIds (Editor.run [.op (.add 7), .op (.dup 9)]
      Samples.deck2).slides).Nodup := by
  have hmain := c8_slide_ids_distinct 1
    [{ title := "t", content := "c", layout := .content },
     { title := "u", content := "d", layout := .split }]
    [.op (.add 7), .op (.dup 9)] Samples.deck2 (by decide) (by decide)
  exact ⟨by decide, by decide, hmain.1, hmain.2⟩

end IdTheorems

section SerializationTheorems

open AppShell

/-- Reading a layout back from its string literal recovers it. -/
theorem layoutOfStr_layoutStr (l : Layout) :
    layoutOfStr (layoutStr l) = some l := by
  cases l <;> rfl

/-- Decoding an encoded slide recovers the slide. -/
theorem decodeSlide_encodeSlide (s : Slide) :
    decodeSlide (encodeSlide s) = some s := by
  rcases s with ⟨id, title, content, imageUrl, theme, layout⟩
  rcases imageUrl with _ | u <;> cases layout <;>
    simp [encodeSlide, decodeSlide, getField, asStr, layoutStr, layoutOfStr,
      List.find?]

/-- Decoding the encoded slide list recovers the list, in order. -/
theorem mapM_decode_map_encode (l : List Slide) :
    (l.map encodeSlide).mapM decodeSlide = some l := by
  induction l with
  | nil => rfl
  | cons s t ih =>
    rw [List.map_cons, List.mapM_cons, decodeSlide_encodeSlide, ih]
    rfl

/-- Claim C4: for every slide list, serializing the slides to the
stored blob (`JSON.stringify` at save) and parsing the blob back
(`JSON.parse` at open) yields the same slides in the same order. -/
theorem c4_save_load_preserves_slides (slides : List Slide) :
    parseSlides (serializeSlides slides) = some slides := by
  simp only [serializeSlides, parseSlides]
  exact mapM_decode_map_encode slides

end SerializationTheorems

section PersistenceTheorems

/-- Claim C9: when a persistence operation fails (the gateway call
throws), the error is caught and the app state is left at its
pre-operation value: a failed save changes neither the current
presentation nor the presentation list, and a failed list/load changes
nothing. -/
theorem c9_persistence_failure_preserves_state (st : AppShell.State)
    (p : Presentation)
    (listRes : AppShell.DbResult (List Presentation)) :
    AppShell.savePresentation st p .err listRes = st ∧
    AppShell.loadPresentations st .err = st :=
  ⟨rfl, rfl⟩

end PersistenceTheorems

section ControlsTheorems

open Controls

/-- One control event preserves the invariant: outside fullscreen the
controls are visible and no hide timer is pending. -/
theorem ctrl_step_inv (e : Controls.Event) (s : Controls.State)
    (h : s.fullscreen = false →
      s.controlsVisible = true ∧ s.deadline = none) :
    (Controls.step e s).fullscreen = false →
      (Controls.step e s).controlsVisible = true ∧
      (Controls.step e s).deadline = none := by
  cases e with
  | setIndex i t =>
    simp only [step]
    split_ifs with h1
    · exact h
    · simp only [runEffect]
      split_ifs with h2 <;> intro hfs
      · simp at hfs
        simp [hfs] at h2
      · simp
  | setFullscreen b t =>
    simp only [step]
    split_ifs with h1
    · exact h
    · simp only [runEffect]
      split_ifs with h2 <;> intro hfs
      · simp at hfs
        simp [hfs] at h2
      · simp
  | mouseMove t =>
    simp only [step]
    intro hfs
    exact ⟨by simp, (h hfs).2⟩
  | timerFire t =>
    simp only [step]
    split_ifs with h1 <;> intro hfs
    · simp only at hfs
      rcases h hfs with ⟨_, hd⟩
      rw [hd] at h1
      simp at h1
    · exact h hfs

/-- Any event sequence from the initial mount preserves the
invariant. -/
theorem ctrl_run_inv (es : List Controls.Event) :
    (Controls.run es Controls.init).fullscreen = false →
      (Controls.run es Controls.init).controlsVisible = true ∧
      (Controls.run es Controls.init).deadline = none := by
  suffices hgen : ∀ s : Controls.State,
      (s.fullscreen = false → s.controlsVisible = true ∧ s.deadline = none) →
      (Controls.run es s).fullscreen = false →
        (Controls.run es s).controlsVisible = true ∧
        (Controls.run es s).deadline = none by
    exact hgen Controls.init (fun _ => ⟨rfl, rfl⟩)
  induction es with
  | nil => intro s h; simpa [Controls.run] using h
  | cons e es ih =>
    intro s h
    have : Controls.run (e :: es) s = Controls.run es (Controls.step e s) := by
      simp [Controls.run]
    rw [this]
    exact ih (Controls.step e s) (ctrl_step_inv e s h)

/-- Counterexample to C10 as stated: enter fullscreen at 0 ms, move
the mouse at 2900 ms, and let the pending timeout fire at 3000 ms.
The implementation hides the controls 100 ms after the mouse movement
because the effect's timer depends only on `isFullscreen` and
`currentSlideIndex`; under the claim's restart-on-mouse-move reading
(`specStep`) they would still be visible at 3000 ms. -/
theorem c10_mouse_does_not_restart_timer :
    (Controls.run [.setFullscreen true 0, .mouseMove 2900, .timerFire 3000]
      Controls.init).controlsVisible = false ∧
    (Controls.specRun [.setFullscreen true 0, .mouseMove 2900,
      .timerFire 3000] Controls.init).controlsVisible = true := by
  decide

/-- Claim C10 (amended): while fullscreen, controlsVisible auto-resets
to false 3 seconds after the most recent index change or fullscreen
entry — the inactivity timer restarts on index and fullscreen changes
but not on mouse movement; mouse movement always sets controlsVisible
to true (leaving any pending timer running); while fullscreen is
false, the controls are always visible. -/
theorem c10_controls_visibility (s : Controls.State) (i t : Nat)
    (es : List Controls.Event) :
    ((Controls.step (.mouseMove t) s).controlsVisible = true ∧
      (Controls.step (.mouseMove t) s).deadline = s.deadline) ∧
    ((Controls.run es Controls.init).fullscreen = false →
      (Controls.run es Controls.init).controlsVisible = true) ∧
    (s.fullscreen = true → i ≠ s.slideIndex →
      (Controls.step (.setIndex i t) s).deadline = some (t + 3000)) ∧
    (s.fullscreen = false →
      (Controls.step (.setFullscreen true t) s).deadline =
        some (t + 3000)) ∧
    (s.deadline = some t →
      (Controls.step (.timerFire t) s).controlsVisible = false) := by
  refine ⟨⟨rfl, rfl⟩, fun hfs => (ctrl_run_inv es hfs).1,
    fun hfs hi => ?_, fun hfs => ?_, fun hd => ?_⟩
  · have hne : (i == s.slideIndex) = false := beq_eq_false_iff_ne.mpr hi
    simp [Controls.step, hne, runEffect, hfs]
  · have hne : (true == s.fullscreen) = false := by simp [hfs]
    simp [Controls.step, hne, runEffect]
  · simp [Controls.step, hd]

/-- Concrete instance of C10 (amended): after entering fullscreen at
0 ms and letting the timer fire at 3000 ms, a mouse move shows the
controls again, and exiting fullscreen keeps them visible. -/
theorem c10_controls_visibility_witness :
    ((Controls.step (.mouseMove 3100)
      (Controls.run [.setFullscreen true 0, .timerFire 3000]
        Controls.init)).controlsVisible = true) ∧
    ((Controls.run [.setFullscreen true 0, .timerFire 3000,
      .setFullscreen false 4000] Controls.init).fullscreen = false →
      (Controls.run [.setFullscreen true 0, .timerFire 3000,
        .setFullscreen false 4000] Controls.init).controlsVisible = true) ∧
    (Controls.init.deadline = none) :=
  ⟨(c10_controls_visibility
      (Controls.run [.setFullscreen true 0, .timerFire 3000] Controls.init)
      0 3100 []).1.1,
    fun hfs => (c10_controls_visibility Controls.init 0 0
      [.setFullscreen true 0, .timerFire 3000,
        .setFullscreen false 4000]).2.1 hfs,
    rfl⟩

end ControlsTheorems
